import Mathlib

/- Verification of the ScribbleSpace note app (src/App.js).

   Part 1 embeds the EditScreen editing session: the React state `note`,
   the debounced save effect
     useEffect(() => { const saveNote = async () => {...};
                       const timeoutId = setTimeout(saveNote, 500);
                       return () => clearTimeout(timeoutId); }, [note, ...])
   and the asynchronous addNote/updateNote mutations it issues.

   Part 2 models the note store consumed through ./db (useSearchNotesQuery,
   useDeleteNoteMutation, useDeleteAllNotesMutation); that module is not part
   of the sources at hand, so it is modelled from the spec. -/

/-- The EditScreen note state: a JS object whose fields may be absent.
`id` is absent for an unsaved draft; `title`/`content` become absent only
when the state is replaced by spreading an absent value (`{...undefined}`). -/
structure JNote where
  id : Option Nat
  title : Option String
  content : Option String
deriving DecidableEq

/-- A backend write issued by the save effect: `addNote({title, content})`
or `updateNote({id, title, content})`, with the argument fields as the code
reads them off the session note at issue time. -/
inductive WriteOp where
  | add (title content : Option String)
  | update (id : Nat) (title content : Option String)
deriving DecidableEq

/-- Events of one editing session, each stamped with its wall-clock time in
milliseconds.  `editTitle`/`editContent` are the TextInput onChangeText
handlers (`setNote(prev => ({...prev, title: text}))` and the content
analogue).  `fire` is the pending debounce timer firing.  `resolve t i ok a`
is the backend answering the i-th in-flight mutation, successfully with
assigned id `a` when `ok`, or with an error when `!ok`. -/
inductive Ev where
  | editTitle (t : Nat) (s : String)
  | editContent (t : Nat) (s : String)
  | fire (t : Nat)
  | resolve (t : Nat) (i : Nat) (ok : Bool) (aid : Nat)
deriving DecidableEq

/-- The observable state of one EditScreen session: the `note` React state,
the deadline of the pending `setTimeout` (if any), the mutations issued but
not yet resolved, the log of all issued writes in order, and whether the
async save function threw a TypeError (dereferencing `result.data` when it
is absent). -/
structure Session where
  note : JNote
  pending : Option Nat
  inflight : List WriteOp
  writes : List WriteOp
  crashed : Bool
deriving DecidableEq

/-- The debounce window: `setTimeout(saveNote, 500)`. -/
def debounce : Nat := 500

/-- Session state at mount time 0: the save effect runs on mount, so a timer
is already armed at `debounce` (this is visible in the code: the effect body
unconditionally calls `setTimeout` on every run, including the first). -/
def initSession (n0 : JNote) : Session :=
  { note := n0, pending := some debounce, inflight := [], writes := [], crashed := false }

/-- One step of the session.  Edits update the note functionally and re-run
the effect (cleanup clears the previous timeout, a new one is armed at
`t + debounce`).  `fire` at the pending deadline runs `saveNote`: an
`updateNote` when `note.id` is set, else an `addNote`; a fire at any other
time is the cancelled stale timer and does nothing.  Resolution of an
`updateNote` is ignored by the code (`await updateNote(...)` discards the
result).  Resolution of an `addNote` runs the continuation
`setNote({...result.data}); navigation.setOptions({title: result.data.title})`:
on success the note is REPLACED by the returned record (the snapshot that was
in flight, now with an id) and the effect re-arms; on failure `result.data`
is absent, so the note becomes the spread of an absent value (all fields
absent), the effect re-arms on that new state, and the `.title` access
throws. -/
def step (s : Session) (e : Ev) : Session :=
  match e with
  | Ev.editTitle t str =>
      { s with note := { s.note with title := some str }, pending := some (t + debounce) }
  | Ev.editContent t str =>
      { s with note := { s.note with content := some str }, pending := some (t + debounce) }
  | Ev.fire t =>
      match s.pending with
      | some d =>
          if t = d then
            let w := match s.note.id with
              | some i => WriteOp.update i s.note.title s.note.content
              | none => WriteOp.add s.note.title s.note.content
            { s with pending := none, inflight := s.inflight ++ [w], writes := s.writes ++ [w] }
          else s
      | none => s
  | Ev.resolve t i ok aid =>
      match s.inflight[i]? with
      | some (WriteOp.add ti co) =>
          if ok then
            { s with note := { id := some aid, title := ti, content := co },
                     inflight := s.inflight.eraseIdx i,
                     pending := some (t + debounce) }
          else
            { s with note := { id := none, title := none, content := none },
                     inflight := s.inflight.eraseIdx i,
                     pending := some (t + debounce),
                     crashed := true }
      | some (WriteOp.update _ _ _) =>
          { s with inflight := s.inflight.eraseIdx i }
      | none => s

/-- Run a session opened on note `n0` through a list of events. -/
def run (n0 : JNote) (evs : List Ev) : Session := evs.foldl step (initSession n0)

/-- The note a fresh EditScreen session starts from: HomeScreen navigates
with `{ note: { title: '', content: '' } }` (no id). -/
def draftNote : JNote := { id := none, title := some "", content := some "" }

/-- The write `saveNote` issues for a given session note. -/
def saveOf (n : JNote) : WriteOp :=
  match n.id with
  | some i => WriteOp.update i n.title n.content
  | none => WriteOp.add n.title n.content

/-- Effect of an edit event on the note state alone. -/
def applyEdit (n : JNote) (e : Ev) : JNote :=
  match e with
  | Ev.editTitle _ str => { n with title := some str }
  | Ev.editContent _ str => { n with content := some str }
  | _ => n

/-- Recognises user-edit events. -/
def isEdit : Ev → Bool
  | Ev.editTitle _ _ => true
  | Ev.editContent _ _ => true
  | _ => false

/-- Timestamp of an event. -/
def evTime : Ev → Nat
  | Ev.editTitle t _ => t
  | Ev.editContent t _ => t
  | Ev.fire t => t
  | Ev.resolve t _ _ _ => t

/-- A fresh session has an empty write log. -/
theorem initSession_writes (n0 : JNote) : (initSession n0).writes = [] := rfl

/-- A fresh session has no mutation in flight. -/
theorem initSession_inflight (n0 : JNote) : (initSession n0).inflight = [] := rfl

/-- An edit event only rewrites the note and re-arms the timer. -/
theorem step_edit (s : Session) (e : Ev) (he : isEdit e = true) :
    step s e = { s with note := applyEdit s.note e, pending := some (evTime e + debounce) } := by
  cases e with
  | editTitle t str => rfl
  | editContent t str => rfl
  | fire t => simp [isEdit] at he
  | resolve t i ok aid => simp [isEdit] at he

/-- Folding edit events: the note accumulates the edits; the write log,
in-flight set and crash flag are untouched. -/
theorem run_edits_core (es : List Ev) (s : Session)
    (hall : ∀ e ∈ es, isEdit e = true) :
    (es.foldl step s).note = es.foldl applyEdit s.note ∧
    (es.foldl step s).writes = s.writes ∧
    (es.foldl step s).inflight = s.inflight ∧
    (es.foldl step s).crashed = s.crashed := by
  induction es generalizing s with
  | nil => simp
  | cons a tl ih =>
      have ha : isEdit a = true := hall a (List.mem_cons_self a tl)
      have htl : ∀ e ∈ tl, isEdit e = true := fun e he => hall e (List.mem_cons_of_mem a he)
      simp only [List.foldl_cons, step_edit s a ha]
      simpa using ih _ htl

/-- Folding a nonempty list of edit events leaves the timer armed at the
last edit's time plus the debounce window. -/
theorem run_edits_pending (es : List Ev) (s : Session) (elast : Ev)
    (hall : ∀ e ∈ es, isEdit e = true) (hlast : es.getLast? = some elast) :
    (es.foldl step s).pending = some (evTime elast + debounce) := by
  induction es generalizing s with
  | nil => simp at hlast
  | cons a tl ih =>
      have ha : isEdit a = true := hall a (List.mem_cons_self a tl)
      have htl : ∀ e ∈ tl, isEdit e = true := fun e he => hall e (List.mem_cons_of_mem a he)
      cases tl with
      | nil =>
          simp at hlast
          subst hlast
          simp [step_edit s a ha]
      | cons b tl2 =>
          have hlast2 : (b :: tl2).getLast? = some elast := by
            simpa [List.getLast?_cons_cons] using hlast
          simpa using ih (step s a) htl hlast2

/-- Edits never change the id. -/
theorem applyEdit_id (es : List Ev) (n : JNote) :
    (es.foldl applyEdit n).id = n.id := by
  induction es generalizing n with
  | nil => rfl
  | cons a tl ih =>
      have h := ih (applyEdit n a)
      have ha : (applyEdit n a).id = n.id := by
        cases a <;> rfl
      simpa [ha] using h

/-- C1 counterexample: one edit to a draft, arriving within the debounce
window; after the window elapses the add fires and succeeds, and the id
assignment re-runs the save effect, which issues a second backend write (an
update echoing the same content).  So a sequence of N = 1 edits to a draft
session leads to two backend writes, not exactly one. -/
theorem c1_counterexample :
    (run draftNote [Ev.editContent 100 "a", Ev.fire 600, Ev.resolve 700 0 true 1,
        Ev.fire 1200]).writes
      = [WriteOp.add (some "") (some "a"), WriteOp.update 1 (some "") (some "a")] ∧
    (run draftNote [Ev.editContent 100 "a", Ev.fire 600, Ev.resolve 700 0 true 1,
        Ev.fire 1200]).writes.length ≠ 1 := by
  constructor
  · decide
  · decide

/-- C1 (amended): during a burst of edits, no write is issued and each edit
re-arms the timer at its own time plus the window; a stale timer firing at
any other instant issues nothing; when the window elapses after the last
edit, exactly one write fires — an add if the session note has no id, else
an update — carrying the final title/content of the burst; after that write
resolves, a draft session gets exactly one follow-up update with the same
content (the id assignment re-runs the save effect), while a session with an
id gets no further write. -/
theorem c1_debounce_coalescing (n0 : JNote) (es : List Ev) (elast : Ev)
    (t1 tr aid : Nat)
    (hall : ∀ e ∈ es, isEdit e = true)
    (hlast : es.getLast? = some elast)
    (ht1 : t1 ≠ evTime elast + debounce) :
    (run n0 es).writes = [] ∧
    (run n0 es).pending = some (evTime elast + debounce) ∧
    (step (run n0 es) (Ev.fire t1)).writes = [] ∧
    (step (run n0 es) (Ev.fire (evTime elast + debounce))).writes
        = [saveOf (es.foldl applyEdit n0)] ∧
    (step (step (step (run n0 es) (Ev.fire (evTime elast + debounce)))
        (Ev.resolve tr 0 true aid)) (Ev.fire (tr + debounce))).writes
      = saveOf (es.foldl applyEdit n0) ::
        (match n0.id with
         | none => [WriteOp.update aid (es.foldl applyEdit n0).title
                      (es.foldl applyEdit n0).content]
         | some _ => []) := by
  obtain ⟨hnote0, hwr, hinf, hcr⟩ := run_edits_core es (initSession n0) hall
  have hnote : (List.foldl step (initSession n0) es).note = List.foldl applyEdit n0 es := hnote0
  have hpend := run_edits_pending es (initSession n0) elast hall hlast
  have hid : (es.foldl applyEdit n0).id = n0.id := applyEdit_id es n0
  refine ⟨by simpa [initSession_writes] using hwr, hpend, ?_, ?_, ?_⟩
  · simp [run, step, hpend, ht1, hwr, initSession_writes]
  · cases hn0 : n0.id with
    | none =>
        simp [run, step, saveOf, hpend, hnote, hwr, hinf, hid, hn0,
          initSession_writes, initSession_inflight]
    | some i =>
        simp [run, step, saveOf, hpend, hnote, hwr, hinf, hid, hn0,
          initSession_writes, initSession_inflight]
  · cases hn0 : n0.id with
    | none =>
        simp [run, step, saveOf, hpend, hnote, hwr, hinf, hid, hn0,
          initSession_writes, initSession_inflight]
    | some i =>
        simp [run, step, saveOf, hpend, hnote, hwr, hinf, hid, hn0,
          initSession_writes, initSession_inflight]

/-- C1 witness: the amended statement at the concrete burst consisting of a
single content edit at t = 100 on a fresh draft, with a stale fire attempt
at t = 0, backend resolution at t = 700 and assigned id 1. -/
theorem c1_debounce_coalescing_witness :
    (run draftNote [Ev.editContent 100 "a"]).writes = [] ∧
    (run draftNote [Ev.editContent 100 "a"]).pending
        = some (evTime (Ev.editContent 100 "a") + debounce) ∧
    (step (run draftNote [Ev.editContent 100 "a"]) (Ev.fire 0)).writes = [] ∧
    (step (run draftNote [Ev.editContent 100 "a"])
        (Ev.fire (evTime (Ev.editContent 100 "a") + debounce))).writes
      = [saveOf ([Ev.editContent 100 "a"].foldl applyEdit draftNote)] ∧
    (step (step (step (run draftNote [Ev.editContent 100 "a"])
          (Ev.fire (evTime (Ev.editContent 100 "a") + debounce)))
        (Ev.resolve 700 0 true 1)) (Ev.fire (700 + debounce))).writes
      = saveOf ([Ev.editContent 100 "a"].foldl applyEdit draftNote) ::
        (match draftNote.id with
         | none => [WriteOp.update 1 ([Ev.editContent 100 "a"].foldl applyEdit draftNote).title
                      ([Ev.editContent 100 "a"].foldl applyEdit draftNote).content]
         | some _ => []) :=
  c1_debounce_coalescing draftNote [Ev.editContent 100 "a"] (Ev.editContent 100 "a")
    0 700 1 (by decide) (by decide) (by decide)

/-- C2: evaluation of the save effect at a trace where the debounce window
of a later edit elapses while the first add is still in flight: the session
issues a second add (duplicating the note), so the draft-to-persisted
transition is not unique.  Edit at t = 0, add fires at t = 500, edit at
t = 600, timer fires at t = 1100 before the first add has resolved. -/
theorem c2_duplicate_add_eval :
    (run draftNote [Ev.editContent 0 "a", Ev.fire 500, Ev.editContent 600 "ab",
        Ev.fire 1100]).writes
      = [WriteOp.add (some "") (some "a"), WriteOp.add (some "") (some "ab")] := by
  decide

/-- C3: evaluation of the save effect at a trace where the user edits while
an add is in flight: edit "a" at t = 0, add fires at t = 500, edit "ab" at
t = 600, add resolves successfully at t = 700.  The continuation
`setNote({...result.data})` replaces the session note with the stale
snapshot ("a", now with id 1) and its effect re-run cancels the timer armed
for "ab"; the next cycle saves "a".  The latest content "ab" is lost and is
never written. -/
theorem c3_stale_snapshot_eval :
    (run draftNote [Ev.editContent 0 "a", Ev.fire 500, Ev.editContent 600 "ab",
        Ev.resolve 700 0 true 1, Ev.fire 1200]).note.content = some "a" ∧
    (run draftNote [Ev.editContent 0 "a", Ev.fire 500, Ev.editContent 600 "ab",
        Ev.resolve 700 0 true 1, Ev.fire 1200]).writes
      = [WriteOp.add (some "") (some "a"), WriteOp.update 1 (some "") (some "a")] := by
  constructor
  · decide
  · decide

/-- C4: evaluation of a session opened on a new note with no edits.  The
save effect runs on mount and arms the timer, so if the session is idle for
the debounce window the code issues an add of the empty draft; only a
session that ends before the window elapses issues no write. -/
theorem c4_mount_timer_eval :
    (run draftNote []).writes = [] ∧
    (run draftNote [Ev.fire debounce]).writes = [WriteOp.add (some "") (some "")] := by
  constructor
  · decide
  · decide

/-- C5: evaluation of the save effect at a failing add: edit "x" at t = 0,
add fires at t = 500, backend write fails at t = 600.  The continuation
`setNote({...result.data})` runs with `result.data` absent, so the note
becomes the empty object — the entered content "x" is dropped — and the next
debounce cycle retries with absent title/content, not with the user's edit. -/
theorem c5_add_failure_drop_eval :
    (run draftNote [Ev.editContent 0 "x", Ev.fire 500, Ev.resolve 600 0 false 0]).note
      = { id := none, title := none, content := none } ∧
    (run draftNote [Ev.editContent 0 "x", Ev.fire 500, Ev.resolve 600 0 false 0,
        Ev.fire 1100]).writes
      = [WriteOp.add (some "") (some "x"), WriteOp.add none none] := by
  constructor
  · decide
  · decide

/-- C10: in the add branch of `saveNote`, `result.data` is dereferenced
unconditionally once the add resolves; whenever the backend add fails (the
result carries an error, no data), the session note is replaced by the
spread of the absent value — all fields absent, the draft's title/content
not retained — and the `.title` access on the absent value throws
(`crashed`). -/
theorem c10_add_failure_deref (s : Session) (t i aid : Nat) (ti co : Option String)
    (h : s.inflight[i]? = some (WriteOp.add ti co)) :
    (step s (Ev.resolve t i false aid)).note
      = { id := none, title := none, content := none } ∧
    (step s (Ev.resolve t i false aid)).crashed = true := by
  constructor
  · simp [step, h]
  · simp [step, h]

/-- C10 witness: the session that edited content to "x" and whose add fired
at t = 500 has that add in flight; resolving it with a failure at t = 600
leaves the note with every field absent and the crash flag set. -/
theorem c10_add_failure_deref_witness :
    (run draftNote [Ev.editContent 0 "x", Ev.fire 500]).inflight[0]?
        = some (WriteOp.add (some "") (some "x")) ∧
    ((step (run draftNote [Ev.editContent 0 "x", Ev.fire 500])
        (Ev.resolve 600 0 false 0)).note
      = { id := none, title := none, content := none } ∧
     (step (run draftNote [Ev.editContent 0 "x", Ev.fire 500])
        (Ev.resolve 600 0 false 0)).crashed = true) :=
  ⟨by decide,
   c10_add_failure_deref (run draftNote [Ev.editContent 0 "x", Ev.fire 500])
     600 0 0 (some "") (some "x") (by decide)⟩

/- Part 2.  The note store behind ./db.  The module implementing
   useSearchNotesQuery / useAddNoteMutation / useUpdateNoteMutation /
   useDeleteNoteMutation / useDeleteAllNotesMutation is not among the
   sources at hand, so the store is modelled from the spec. -/

/-- Modelled from the spec: a persisted note of the Note Index — `id`
assigned by the persistence backend, `title` and `content` possibly empty
text. -/
structure Note where
  id : Nat
  title : String
  content : String
deriving DecidableEq

/-- `leadMatch q l` holds when `q` is an initial run of `l`. -/
def leadMatch : List Char → List Char → Bool
  | [], _ => true
  | _ :: _, [] => false
  | a :: as, b :: bs => a == b && leadMatch as bs

/-- `subMatch q l` holds when `q` occurs contiguously inside `l`. -/
def subMatch (q : List Char) : List Char → Bool
  | [] => q.isEmpty
  | h :: t => leadMatch q (h :: t) || subMatch q t

/-- The characters of a string, lower-cased. -/
def lowerChars (s : String) : List Char := s.data.map Char.toLower

/-- Modelled from the spec: the case-insensitive matching rule — the query
is a substring of the text, compared case-insensitively. -/
def containsCI (hay q : String) : Bool := subMatch (lowerChars q) (lowerChars hay)

/-- Modelled from the spec: `search(query)` (useSearchNotesQuery) filters
the Note Index, keeping the notes whose title or content contains the query
case-insensitively; filtering preserves index order. -/
def searchNotes (q : String) (notes : List Note) : List Note :=
  notes.filter (fun n => containsCI n.title q || containsCI n.content q)

/-- Modelled from the spec: `remove(id)` (useDeleteNoteMutation) drops the
note with the given id from the Note Index; a missing id is a silent no-op,
never an error. -/
def removeNote (i : Nat) (notes : List Note) : List Note :=
  notes.filter (fun n => n.id != i)

/-- Modelled from the spec: the store state — the Note Index (insertion
order) plus the backend's id counter. -/
structure Store where
  notes : List Note
  nextId : Nat
deriving DecidableEq

/-- Modelled from the spec: the operations of the mutation pipeline
(add / update / delete / delete-all). -/
inductive StoreOp where
  | add (title content : String)
  | save (i : Nat) (title content : String)
  | remove (i : Nat)
  | clearAll
deriving DecidableEq

/-- Modelled from the spec: one confirmed mutation applied to the store —
`add` appends a note with the backend-assigned id at the end of the index,
`save` replaces the record with the matching id in place, `remove` drops it,
and `clearAll` clears backend and index in a single committed step (no
intermediate state exists between the old index and the empty one). -/
def applyOp (s : Store) (op : StoreOp) : Store :=
  match op with
  | StoreOp.add t c =>
      { notes := s.notes ++ [{ id := s.nextId, title := t, content := c }],
        nextId := s.nextId + 1 }
  | StoreOp.save i t c =>
      { s with notes := s.notes.map (fun n =>
          if n.id = i then { n with title := t, content := c } else n) }
  | StoreOp.remove i => { s with notes := removeNote i s.notes }
  | StoreOp.clearAll => { s with notes := [] }

/-- A sequence of confirmed mutations, applied in order; subscriptions are
recomputed from the index after each step, so the states of this fold are
exactly the states any subscription can observe. -/
def applyOps (s : Store) (ops : List StoreOp) : Store := ops.foldl applyOp s

/-- Recognises the `add` mutation. -/
def isAddOp : StoreOp → Bool
  | StoreOp.add _ _ => true
  | _ => false

/-- `leadMatch` is exactly the prefix relation. -/
theorem leadMatch_iff (q l : List Char) :
    leadMatch q l = true ↔ ∃ rest, l = q ++ rest := by
  induction q generalizing l with
  | nil => simp [leadMatch]
  | cons a as ih =>
      cases l with
      | nil => simp [leadMatch]
      | cons b bs =>
          simp only [leadMatch, Bool.and_eq_true, beq_iff_eq, ih, List.cons_append,
            List.cons.injEq]
          constructor
          · rintro ⟨hab, rest, hrest⟩
            exact ⟨rest, hab.symm, hrest⟩
          · rintro ⟨rest, hba, hrest⟩
            exact ⟨hba.symm, rest, hrest⟩

/-- `subMatch` is exactly the contiguous-substring relation. -/
theorem subMatch_iff (q l : List Char) :
    subMatch q l = true ↔ ∃ pre rest, l = pre ++ (q ++ rest) := by
  induction l with
  | nil =>
      constructor
      · intro hq
        cases q with
        | nil => exact ⟨[], [], rfl⟩
        | cons a as => simp [subMatch] at hq
      · rintro ⟨pre, rest, hrest⟩
        have h2 : pre = [] ∧ q ++ rest = [] := List.append_eq_nil.mp hrest.symm
        have h3 : q = [] ∧ rest = [] := List.append_eq_nil.mp h2.2
        rw [h3.1]
        rfl
  | cons h t ih =>
      simp only [subMatch, Bool.or_eq_true, leadMatch_iff, ih]
      constructor
      · rintro (⟨rest, hrest⟩ | ⟨pre, rest, hrest⟩)
        · exact ⟨[], rest, by simpa using hrest⟩
        · exact ⟨h :: pre, rest, by simp [hrest]⟩
      · rintro ⟨pre, rest, hrest⟩
        cases pre with
        | nil => exact Or.inl ⟨rest, by simpa using hrest⟩
        | cons p ps =>
            rw [List.cons_append] at hrest
            injection hrest with h1 h2
            exact Or.inr ⟨ps, rest, h2⟩

/-- The empty query matches every text. -/
theorem subMatch_nil (l : List Char) : subMatch [] l = true := by
  cases l with
  | nil => rfl
  | cons h t => simp [subMatch, leadMatch]

/-- C6: `search(Q)` returns exactly the stored notes whose title or content
contains Q as a case-insensitive substring, and `search("")` returns all
stored notes. -/
theorem c6_search_spec (q : String) (S : List Note) :
    (∀ n, n ∈ searchNotes q S ↔ n ∈ S ∧
      ((∃ pre rest, lowerChars n.title = pre ++ (lowerChars q ++ rest)) ∨
       (∃ pre rest, lowerChars n.content = pre ++ (lowerChars q ++ rest)))) ∧
    searchNotes "" S = S := by
  constructor
  · intro n
    simp [searchNotes, List.mem_filter, containsCI, subMatch_iff]
  · have hq : lowerChars "" = [] := rfl
    refine List.filter_eq_self.mpr ?_
    intro n hn
    simp [containsCI, hq, subMatch_nil]

/-- Mutations other than `add` keep an empty Note Index empty: cleared notes
cannot reappear. -/
theorem applyOps_empty (ops : List StoreOp) (s : Store)
    (hempty : s.notes = []) (hnoadd : ∀ op ∈ ops, isAddOp op = false) :
    (applyOps s ops).notes = [] := by
  induction ops generalizing s with
  | nil => simpa [applyOps] using hempty
  | cons a tl ih =>
      have ha := hnoadd a (List.mem_cons_self a tl)
      have htl : ∀ op ∈ tl, isAddOp op = false :=
        fun op hop => hnoadd op (List.mem_cons_of_mem a hop)
      have hstep : (applyOp s a).notes = [] := by
        cases a with
        | add t c => simp [isAddOp] at ha
        | save i t c => simp [applyOp, hempty]
        | remove i => simp [applyOp, removeNote, hempty]
        | clearAll => simp [applyOp]
      simpa [applyOps] using ih (applyOp s a) hstep htl

/-- C7: `deleteAll` commits backend and index clearing in one step: from any
store state reached by a history `pre`, the single `clearAll` step yields an
index with zero notes and every search over it is empty — there is no
intermediate recompute between the old state and the empty one — and as long
as no new `add` is issued afterwards, no subscription can ever observe the
old notes reappearing. -/
theorem c7_clear_all (s0 : Store) (pre post : List StoreOp) (q : String)
    (hnoadd : ∀ op ∈ post, isAddOp op = false) :
    (applyOp (applyOps s0 pre) StoreOp.clearAll).notes = [] ∧
    searchNotes q (applyOp (applyOps s0 pre) StoreOp.clearAll).notes = [] ∧
    (applyOps s0 (pre ++ StoreOp.clearAll :: post)).notes = [] := by
  refine ⟨rfl, rfl, ?_⟩
  have hsplit : applyOps s0 (pre ++ StoreOp.clearAll :: post)
      = applyOps (applyOp (applyOps s0 pre) StoreOp.clearAll) post := by
    simp [applyOps, List.foldl_append]
  rw [hsplit]
  exact applyOps_empty post _ rfl hnoadd

/-- C7 witness: clearing a store holding three notes, followed by an
unrelated delete, leaves `search("")` empty at once and the notes never
reappear. -/
theorem c7_clear_all_witness :
    (applyOp (applyOps { notes := [{ id := 1, title := "A", content := "x" },
        { id := 2, title := "B", content := "y" },
        { id := 3, title := "C", content := "z" }], nextId := 4 } [])
        StoreOp.clearAll).notes = [] ∧
    searchNotes "" (applyOp (applyOps { notes := [{ id := 1, title := "A", content := "x" },
        { id := 2, title := "B", content := "y" },
        { id := 3, title := "C", content := "z" }], nextId := 4 } [])
        StoreOp.clearAll).notes = [] ∧
    (applyOps { notes := [{ id := 1, title := "A", content := "x" },
        { id := 2, title := "B", content := "y" },
        { id := 3, title := "C", content := "z" }], nextId := 4 }
        ([] ++ StoreOp.clearAll :: [StoreOp.remove 5])).notes = [] :=
  c7_clear_all { notes := [{ id := 1, title := "A", content := "x" },
      { id := 2, title := "B", content := "y" },
      { id := 3, title := "C", content := "z" }], nextId := 4 }
    [] [StoreOp.remove 5] "" (by decide)

/-- C8: `remove(id)` is idempotent — the second of two successive removals
of the same id leaves the Note Index unchanged (and, being total, reports no
error); after a removal the id is gone from the index; and a removal
targeting an id not present in the index is a silent no-op. -/
theorem c8_remove_idempotent (i : Nat) (S T : List Note)
    (habsent : ∀ n ∈ T, n.id ≠ i) :
    removeNote i (removeNote i S) = removeNote i S ∧
    (∀ n ∈ removeNote i S, n.id ≠ i) ∧
    removeNote i T = T := by
  refine ⟨?_, ?_, ?_⟩
  · simp [removeNote, List.filter_filter]
  · intro n hn
    have h := List.of_mem_filter hn
    simpa [bne_iff_ne] using h
  · refine List.filter_eq_self.mpr ?_
    intro n hn
    simpa [bne_iff_ne] using habsent n hn

/-- C8 witness: removing id 7 from a two-note index drops exactly the note
with id 7, a second removal changes nothing further, and removing id 7 from
an index without it is a no-op. -/
theorem c8_remove_idempotent_witness :
    removeNote 7 (removeNote 7 [{ id := 7, title := "a", content := "x" },
        { id := 1, title := "b", content := "y" }])
      = removeNote 7 [{ id := 7, title := "a", content := "x" },
        { id := 1, title := "b", content := "y" }] ∧
    (∀ n ∈ removeNote 7 [{ id := 7, title := "a", content := "x" },
        { id := 1, title := "b", content := "y" }], n.id ≠ 7) ∧
    removeNote 7 [{ id := 1, title := "b", content := "y" }]
      = [{ id := 1, title := "b", content := "y" }] :=
  c8_remove_idempotent 7
    [{ id := 7, title := "a", content := "x" }, { id := 1, title := "b", content := "y" }]
    [{ id := 1, title := "b", content := "y" }] (by decide)

/-- Replacing a record in place never changes the sequence of ids. -/
theorem mapId_update (l : List Note) (i : Nat) (t c : String) :
    (l.map (fun n => if n.id = i then { n with title := t, content := c } else n)).map Note.id
      = l.map Note.id := by
  induction l with
  | nil => rfl
  | cons a tl ih =>
      by_cases h : a.id = i
      · simp [h, ih]
      · simp [h, ih]

/-- C9: result order is the insertion order of the Note Index — a new note
is appended at the end, a successful update replaces the record in place
without moving it (the sequence of ids is unchanged), and a subscription's
result is an order-preserving selection (a sublist) of the index. -/
theorem c9_insertion_order (s : Store) (t c : String) (i : Nat) (q : String) :
    (applyOp s (StoreOp.add t c)).notes
      = s.notes ++ [{ id := s.nextId, title := t, content := c }] ∧
    ((applyOp s (StoreOp.save i t c)).notes).map Note.id = s.notes.map Note.id ∧
    List.Sublist (searchNotes q s.notes) s.notes := by
  refine ⟨rfl, mapId_update s.notes i t c, List.filter_sublist s.notes⟩
